import Mathlib

/-!
Shallow embedding of the coverage-analysis scripts of the repository
(prenatal_ultrassonografia.py, ultrassons.py, analise_gap_tecnologico.py,
graficos_cobertura_prenatal.py, prenatal_mortalidade.py, mapa_desigualdades.py).

Numeric cells are rationals; pandas float results that can be non-finite are
modelled by `PFloat`, with NaN as an explicit marker value.  Missing cells
(blank spreadsheet entries, `to_numeric(errors = 'coerce')` failures) are
`Option` values.  Tables are lists of rows, in file order.
-/

/-- Result values of pandas float arithmetic as used by these scripts: a
finite rational, positive or negative infinity, or the missing-value marker
NaN.  Equality of `PFloat` is structural (NaN is a marker equal to itself),
matching the scripts' use of `fillna`/`dropna`/`isna`, which treat NaN as a
distinguishable marker rather than through IEEE comparison. -/
inductive PFloat where
  | num (q : ℚ)
  | inf
  | ninf
  | nan
deriving DecidableEq, Repr

/-- Float division of two finite column values, as numpy evaluates `a / b`
on float cells: finite quotient when `b` is nonzero, signed infinity for a
nonzero numerator over zero, NaN for `0 / 0`.  (The scripts suppress the
associated warnings; no exception is raised.) -/
def pqdiv (a b : ℚ) : PFloat :=
  if b ≠ 0 then .num (a / b)
  else if 0 < a then .inf
  else if a < 0 then .ninf
  else .nan

/-- Negation of a pandas float value. -/
def pfNeg : PFloat → PFloat
  | .num a => .num (-a)
  | .inf => .ninf
  | .ninf => .inf
  | .nan => .nan

/-- Addition of pandas float values (NaN propagates; opposite infinities
give NaN). -/
def pfAdd : PFloat → PFloat → PFloat
  | .nan, _ => .nan
  | _, .nan => .nan
  | .inf, .ninf => .nan
  | .ninf, .inf => .nan
  | .inf, _ => .inf
  | _, .inf => .inf
  | .ninf, _ => .ninf
  | _, .ninf => .ninf
  | .num a, .num b => .num (a + b)

/-- Subtraction of pandas float values. -/
def pfSub (x y : PFloat) : PFloat := pfAdd x (pfNeg y)

/-- Division of pandas float values (NaN propagates; `inf / inf` is NaN;
a finite value over an infinity is 0; division of finite values is
`pqdiv`). -/
def pfDiv : PFloat → PFloat → PFloat
  | .nan, _ => .nan
  | _, .nan => .nan
  | .inf, .inf => .nan
  | .inf, .ninf => .nan
  | .ninf, .inf => .nan
  | .ninf, .ninf => .nan
  | .inf, .num b => if 0 ≤ b then .inf else .ninf
  | .ninf, .num b => if 0 ≤ b then .ninf else .inf
  | .num _, .inf => .num 0
  | .num _, .ninf => .num 0
  | .num a, .num b => pqdiv a b

/-- Multiplication of a pandas float value by a finite constant, as in the
scripts' `* 100` and `* 1000` steps. -/
def pfScale (c : ℚ) : PFloat → PFloat
  | .num a => .num (a * c)
  | .nan => .nan
  | .inf => if 0 < c then .inf else if c < 0 then .ninf else .nan
  | .ninf => if 0 < c then .ninf else if c < 0 then .inf else .nan

/-- Model of `Series.fillna(0)`: NaN becomes the number 0, every other value
(including infinities) is kept. -/
def fillna0 : PFloat → PFloat
  | .nan => .num 0
  | x => x

/-- Test for the NaN marker, as `isna`/`dropna` see it. -/
def pfIsNan : PFloat → Bool
  | .nan => true
  | _ => false

/-- Comparison used when sorting non-NaN pandas floats ascending. -/
def pfLEb : PFloat → PFloat → Bool
  | .nan, _ => true
  | _, .nan => true
  | .ninf, _ => true
  | .inf, .inf => true
  | .inf, .num _ => false
  | .inf, .ninf => false
  | .num _, .ninf => false
  | .num a, .num b => decide (a ≤ b)
  | .num _, .inf => true

/-- Model of a descending `sort_values` on one float key followed by no
further step: non-NaN rows sorted descending, NaN rows moved to the end
(`na_position` defaults to last).  Sorting is by insertion sort, which keeps
rows with equal keys in input order; this agrees with the source wherever the
key column has no duplicate values (the inputs exercised here), while the
source's default `kind` is numpy's quicksort, whose tie order is not
specified in general. -/
def pdSortDesc {α : Type} (key : α → PFloat) (l : List α) : List α :=
  ((l.filter (fun a => !(pfIsNan (key a)))).insertionSort
      (fun x y => pfLEb (key y) (key x)))
    ++ l.filter (fun a => pfIsNan (key a))

/-- Model of `sort_values(...)` ascending on one float key, NaN rows last. -/
def pdSortAsc {α : Type} (key : α → PFloat) (l : List α) : List α :=
  ((l.filter (fun a => !(pfIsNan (key a)))).insertionSort
      (fun x y => pfLEb (key x) (key y)))
    ++ l.filter (fun a => pfIsNan (key a))

/-- Model of `sort_values(...).head(n)` with a descending sort: the top-n
selection the scripts use. -/
def topNBy {α : Type} (key : α → PFloat) (n : ℕ) (l : List α) : List α :=
  (pdSortDesc key l).take n

/-- Whitespace as Python's `str.strip` sees it (the characters occurring in
these spreadsheets' headers). -/
def isPySpace (c : Char) : Bool :=
  c == ' ' || c == '\t' || c == '\n' || c == '\r'

/-- Model of Python's `str.strip()` on a character list. -/
def pyStripL (l : List Char) : List Char :=
  ((l.dropWhile isPySpace).reverse.dropWhile isPySpace).reverse

/-- Model of Python's `str.lower()` on one character, covering ASCII and the
accented Latin capitals that occur in these spreadsheets' headers. -/
def pyLowerChar (c : Char) : Char :=
  match c with
  | 'Á' => 'á'
  | 'Â' => 'â'
  | 'Ã' => 'ã'
  | 'À' => 'à'
  | 'É' => 'é'
  | 'Ê' => 'ê'
  | 'Í' => 'í'
  | 'Ó' => 'ó'
  | 'Ô' => 'ô'
  | 'Õ' => 'õ'
  | 'Ú' => 'ú'
  | 'Ç' => 'ç'
  | _ => c.toLower

/-- Model of Python's `str.lower()` on a string. -/
def pyLower (s : String) : String :=
  String.mk (s.toList.map pyLowerChar)

/-- Model of one character's fate under `str.normalize('NFKD')` followed by
`str.encode('ascii', errors = 'ignore')`: ASCII characters survive, accented
Latin letters decompose to their base letter (the combining accent is then
dropped), compatibility characters such as the ordinal signs decompose to a
plain letter, and other non-ASCII characters (for example the ≥ sign) are
dropped. -/
def asciiFoldChar (c : Char) : Option Char :=
  if c.toNat < 128 then some c else
  match c with
  | 'á' | 'â' | 'ã' | 'à' => some 'a'
  | 'é' | 'ê' => some 'e'
  | 'í' => some 'i'
  | 'ó' | 'ô' | 'õ' => some 'o'
  | 'ú' => some 'u'
  | 'ç' => some 'c'
  | 'Á' | 'Â' | 'Ã' | 'À' => some 'A'
  | 'É' | 'Ê' => some 'E'
  | 'Í' => some 'I'
  | 'Ó' | 'Ô' | 'Õ' => some 'O'
  | 'Ú' => some 'U'
  | 'Ç' => some 'C'
  | 'º' => some 'o'
  | 'ª' => some 'a'
  | _ => none

/-- Model of `clean_column_names` from analise_gap_tecnologico.py applied to
one column name: `str.strip()`, then `str.lower()`, then
`str.replace(' ', '_')`, then NFKD normalization with ASCII re-encoding that
ignores what cannot be encoded. -/
def cleanName (s : String) : String :=
  String.mk ((((pyStripL s.toList).map pyLowerChar).map
      (fun c => if c == ' ' then '_' else c)).filterMap asciiFoldChar)

/-- Does the character list start with the given pattern? -/
def startsWithL : List Char → List Char → Bool
  | _, [] => true
  | [], _ :: _ => false
  | c :: cs, p :: ps => c == p && startsWithL cs ps

/-- Does the character list contain the pattern as a contiguous run?  This is
Python's `pattern in s` on strings. -/
def hasSubL (pat : List Char) : List Char → Bool
  | [] => pat.isEmpty
  | c :: cs => startsWithL (c :: cs) pat || hasSubL pat cs

/-- Python's substring test `pat in hay`. -/
def hasSub (hay pat : String) : Bool :=
  hasSubL pat.toList hay.toList

/-- Model of `find_column` from prenatal_ultrassonografia.py: try the
candidate patterns in order; for the first pattern with at least one column
whose lowercased name contains the lowercased pattern, return the first such
column in table order; with no match at all return `none` (Python `None`). -/
def findColumn (cols : List String) : List String → Option String
  | [] => none
  | p :: ps =>
    match cols.filter (fun c => hasSub (pyLower c) (pyLower p)) with
    | [] => findColumn cols ps
    | c :: _ => some c

/-- Model of the scripts' other resolver idiom, for example in
gerar_resumo_estatistico of graficos_cobertura_prenatal.py:
`[col for col in df.columns if pat in col.lower()][0]`.  An empty match list
makes the `[0]` subscript raise an `IndexError`, modelled as the error
branch. -/
def resolveFirstCol (cols : List String) (pat : String) : Except String String :=
  match cols.filter (fun c => hasSub (pyLower c) pat) with
  | [] => .error "IndexError"
  | c :: _ => .ok c

/-- Distinct values of a key column in first-occurrence order.  (Used to
state what a stable grouping would produce; pandas groupby does not produce
this order, see `pdGroups`.) -/
def uniqKeys (l : List String) : List String :=
  l.reverse.dedup.reverse

/-- Lexicographic comparison of character lists by code point, as Python
compares strings. -/
def strLeL : List Char → List Char → Bool
  | [], _ => true
  | _ :: _, [] => false
  | a :: as, b :: bs =>
    if a < b then true
    else if b < a then false
    else strLeL as bs

/-- Python's string comparison `a <= b` (code-point lexicographic). -/
def strLeb (a b : String) : Bool :=
  strLeL a.toList b.toList

/-- Propositional form of `strLeb`, the order pandas sorts object keys
by. -/
def strLe (a b : String) : Prop := strLeb a b = true

instance : DecidableRel strLe := fun a b =>
  inferInstanceAs (Decidable (strLeb a b = true))

instance : IsTotal String strLe where
  total := by
    have key : ∀ as bs : List Char, strLeL as bs = true ∨ strLeL bs as = true := by
      intro as
      induction as with
      | nil => intro bs; left; simp [strLeL]
      | cons a as ih =>
        intro bs
        cases bs with
        | nil => right; simp [strLeL]
        | cons b bs' =>
          rcases lt_trichotomy a b with h | h | h
          · left; simp [strLeL, h]
          · subst h
            rcases ih bs' with h' | h'
            · left; simp [strLeL, lt_irrefl, h']
            · right; simp [strLeL, lt_irrefl, h']
          · right; simp [strLeL, h]
    intro a b
    exact key a.toList b.toList

instance : IsTrans String strLe where
  trans := by
    have key : ∀ as bs cs : List Char,
        strLeL as bs = true → strLeL bs cs = true → strLeL as cs = true := by
      intro as
      induction as with
      | nil => intro bs cs _ _; simp [strLeL]
      | cons a as ih =>
        intro bs cs h1 h2
        cases bs with
        | nil => simp [strLeL] at h1
        | cons b bs' =>
          cases cs with
          | nil => simp [strLeL] at h2
          | cons c cs' =>
            rcases lt_trichotomy a b with hab | hab | hab
            · rcases lt_trichotomy b c with hbc | hbc | hbc
              · simp [strLeL, lt_trans hab hbc]
              · subst hbc; simp [strLeL, hab]
              · simp [strLeL, lt_asymm hbc, hbc] at h2
            · subst hab
              simp only [strLeL, lt_irrefl, if_false] at h1
              rcases lt_trichotomy a c with hac | hac | hac
              · simp [strLeL, hac]
              · subst hac
                simp only [strLeL, lt_irrefl, if_false] at h2
                simp only [strLeL, lt_irrefl, if_false]
                exact ih bs' cs' h1 h2
              · simp [strLeL, lt_asymm hac, hac] at h2
            · simp [strLeL, lt_asymm hab, hab] at h1
    intro a b c h1 h2
    exact key a.toList b.toList c.toList h1 h2

/-- Ascending lexicographic sort of key values, as pandas `groupby` with its
default `sort = True` orders the groups.  Distinct keys have a unique sorted
arrangement, so the choice of sorting algorithm is immaterial here. -/
def sortKeys (l : List String) : List String :=
  l.insertionSort strLe

/-- Model of `df.groupby(keycol)`: one group per distinct key value, in
ascending key order (pandas defaults to `sort = True`); rows whose key cell
is missing are dropped (pandas defaults to `dropna = True`).  Each group
carries the rows that share its key, in input order. -/
def pdGroups {ρ : Type} (key : ρ → Option String) (t : List ρ) :
    List (String × List ρ) :=
  (sortKeys (uniqKeys (t.filterMap key))).map
    (fun k => (k, t.filter (fun r => decide (key r = some k))))

/-- Model of `.agg('sum')` on one numeric column over a list of rows:
missing cells contribute zero (pandas sums with `skipna = True`). -/
def sumColQ {ρ : Type} (f : ρ → Option ℚ) (rs : List ρ) : ℚ :=
  (rs.map (fun r => (f r).getD 0)).sum

/-- Row of a prenatal spreadsheet after column resolution: the DSEI name,
the number of pregnant women (denominator), and the count with six or more
consultations (numerator).  Cells can be missing. -/
structure PrenatalRow where
  dsei : Option String
  gestantes : Option ℚ
  consultas : Option ℚ
deriving DecidableEq, Repr

/-- Output row of `process_prenatal_data`: sums per DSEI and the coverage
column after `fillna(0)`. -/
structure PGrouped where
  dsei : String
  gestantesSum : ℚ
  consultasSum : ℚ
  cobertura : PFloat
deriving DecidableEq, Repr

/-- Model of `process_prenatal_data` from prenatal_ultrassonografia.py
(column resolution by `find_column` is modelled separately; rows here carry
the resolved fields): group by DSEI, sum the two count columns, divide, then
`fillna(0)`. -/
def processPrenatalData (t : List PrenatalRow) : List PGrouped :=
  (pdGroups PrenatalRow.dsei t).map (fun kg =>
    let g := sumColQ PrenatalRow.gestantes kg.2
    let c := sumColQ PrenatalRow.consultas kg.2
    { dsei := kg.1, gestantesSum := g, consultasSum := c,
      cobertura := fillna0 (pqdiv c g) })

/-- Output row of the prenatal grouping in prenatal_mortalidade.py, whose
coverage column is a percentage (ratio times 100) and is not `fillna`-ed. -/
structure MortGrouped where
  dsei : String
  gestantesSum : ℚ
  consultasSum : ℚ
  coberturaPct : PFloat
deriving DecidableEq, Repr

/-- Model of `prenatal_grouped` from prenatal_mortalidade.py: group the
concatenated 2022 and 2023 prenatal rows by DSEI_GESTAO, sum the counts, and
compute the percentage coverage. -/
def prenatalMortGrouped (t : List PrenatalRow) : List MortGrouped :=
  (pdGroups PrenatalRow.dsei t).map (fun kg =>
    let g := sumColQ PrenatalRow.gestantes kg.2
    let c := sumColQ PrenatalRow.consultas kg.2
    { dsei := kg.1, gestantesSum := g, consultasSum := c,
      coberturaPct := pfScale 100 (pqdiv c g) })

/-- Row of an ultrasound spreadsheet after the renames in
`ultrassom_coverage_analysis` (ultrassons.py): `to_numeric(errors='coerce')`
has already turned unparsable cells into missing values. -/
structure URow where
  dsei : Option String
  gestantes : Option ℚ
  ultrassons : Option ℚ
deriving DecidableEq, Repr

/-- Surviving row of `ultrassom_coverage_analysis` with its coverage. -/
structure UOut where
  dsei : String
  gestantes : ℚ
  ultrassons : ℚ
  cobertura : ℚ
deriving DecidableEq, Repr

/-- Model of the data preparation of `ultrassom_coverage_analysis`
(ultrassons.py, after renaming): `dropna` on the three columns, keep rows
with `gestantes > 0`, and compute coverage per row.  The `gestantes > 0`
filter makes every division finite. -/
def ultrassomCoverage (t : List URow) : List UOut :=
  t.filterMap (fun r =>
    match r.dsei, r.gestantes, r.ultrassons with
    | some d, some g, some u => if 0 < g then some ⟨d, g, u, u / g⟩ else none
    | _, _, _ => none)

/-- Row of an infant-mortality spreadsheet after the positional renaming in
prenatal_mortalidade.py (`obitos.columns = [...]`). -/
structure ObitoRow where
  dsei : Option String
  nascidos : Option ℚ
  obitosMaternos : Option ℚ
  obitosInfantis : Option ℚ
deriving DecidableEq, Repr

/-- Output row of `obitos_grouped` with the two derived per-thousand
rates. -/
structure OGrouped where
  dsei : String
  nascidosSum : ℚ
  obitosSum : ℚ
  sobrevivencia : PFloat
  mortalidade : PFloat
deriving DecidableEq, Repr

/-- Model of `obitos_grouped` from prenatal_mortalidade.py: group the
concatenated mortality rows by DSEI, sum live births and infant deaths, then
derive the survival and infant-mortality rates per thousand. -/
def obitosGrouped (t : List ObitoRow) : List OGrouped :=
  (pdGroups ObitoRow.dsei t).map (fun kg =>
    let n := sumColQ ObitoRow.nascidos kg.2
    let o := sumColQ ObitoRow.obitosInfantis kg.2
    { dsei := kg.1, nascidosSum := n, obitosSum := o,
      sobrevivencia := pfScale 1000 (pqdiv (n - o) n),
      mortalidade := pfScale 1000 (pqdiv o n) })

/-- Lookup of the first entry with the given key in an association list, as
a row lookup in a keyed frame. -/
def alookup {β : Type} (g : String) : List (String × β) → Option β
  | [] => none
  | p :: l => if p.1 = g then some p.2 else alookup g l

/-- Model of `DataFrame.merge(..., on = keycol)` with the default
`how = 'inner'`: every pairing of a left row and a right row with equal keys,
in left-frame order. -/
def mergeInner {β γ : Type} (A : List (String × β)) (B : List (String × γ)) :
    List (String × β × γ) :=
  A.flatMap (fun p => B.filterMap (fun q =>
    if q.1 = p.1 then some (p.1, p.2, q.2) else none))

/-- Model of the gap computation of `create_heatmap_comparison`
(analise_gap_tecnologico.py): inner-merge the two coverage series on the
DSEI key and set `gap = cobertura_prenatal - cobertura_ultrassom`.  (The
subsequent sort for plotting is not part of the gap values.) -/
def gapDF (A B : List (String × PFloat)) : List (String × PFloat) :=
  (mergeInner A B).map (fun x => (x.1, pfSub x.2.1 x.2.2))

/-- Row of the concatenated prenatal frame of
graficos_cobertura_prenatal.py, carrying the year column the loader adds. -/
structure PAnoRow where
  dsei : Option String
  gestantes : Option ℚ
  consultas : Option ℚ
  ano : Int
deriving DecidableEq, Repr

/-- Sorted distinct DSEI names of the year-tagged prenatal frame: the index
of the pivot in `comparar_evolucao_cobertura`. -/
def dseisOf (t : List PAnoRow) : List String :=
  sortKeys (uniqKeys (t.filterMap PAnoRow.dsei))

/-- Entry of the coverage pivot of `comparar_evolucao_cobertura`
(graficos_cobertura_prenatal.py) at one DSEI and year: the group's summed
coverage when rows for that pair exist, NaN when the pivot cell is empty. -/
def covAt (t : List PAnoRow) (d : String) (y : Int) : PFloat :=
  let rs := t.filter (fun r => decide (r.dsei = some d) && decide (r.ano = y))
  if rs.isEmpty then .nan
  else pqdiv (sumColQ PAnoRow.consultas rs) (sumColQ PAnoRow.gestantes rs)

/-- Model of the change computation of `comparar_evolucao_cobertura`: pivot
coverage by DSEI and year, drop DSEIs whose 2022 or 2023 cell is NaN
(`dropna(subset = [2022, 2023])`), and set
`variacao = ((c2023 - c2022) / c2022) * 100`.  (The subsequent sort for
plotting is not part of the change values.) -/
def comparEvolucao (t : List PAnoRow) : List (String × PFloat) :=
  ((dseisOf t).filter (fun d =>
      !(pfIsNan (covAt t d 2022)) && !(pfIsNan (covAt t d 2023)))).map
    (fun d => (d, pfScale 100
      (pfDiv (pfSub (covAt t d 2023) (covAt t d 2022)) (covAt t d 2022))))

/-! Helper lemmas about the embedded operations. -/

theorem sumColQ_cons {ρ : Type} (f : ρ → Option ℚ) (a : ρ) (t : List ρ) :
    sumColQ f (a :: t) = (f a).getD 0 + sumColQ f t := by
  simp [sumColQ]

theorem sumColQ_filter_split {ρ : Type} (f : ρ → Option ℚ) (p : ρ → Bool)
    (t : List ρ) :
    sumColQ f (t.filter p) + sumColQ f (t.filter (fun r => !(p r)))
      = sumColQ f t := by
  induction t with
  | nil => simp [sumColQ]
  | cons a t ih =>
    rcases Bool.eq_false_or_eq_true (p a) with h | h
    · simp [List.filter_cons, h, sumColQ_cons]
      linarith [ih]
    · simp [List.filter_cons, h, sumColQ_cons]
      linarith [ih]

theorem mem_uniqKeys {l : List String} {a : String} : a ∈ uniqKeys l ↔ a ∈ l := by
  simp [uniqKeys]

theorem nodup_uniqKeys (l : List String) : (uniqKeys l).Nodup := by
  simp [uniqKeys, List.nodup_dedup]

theorem perm_sortKeys (l : List String) : List.Perm (sortKeys l) l :=
  List.perm_insertionSort strLe l

theorem mem_sortKeys {l : List String} {a : String} : a ∈ sortKeys l ↔ a ∈ l :=
  (perm_sortKeys l).mem_iff

theorem nodup_sortKeys {l : List String} (h : l.Nodup) : (sortKeys l).Nodup :=
  ((perm_sortKeys l).nodup_iff).mpr h

theorem sorted_sortKeys (l : List String) : List.Sorted strLe (sortKeys l) :=
  List.sorted_insertionSort strLe l

theorem keys_pdGroups {ρ : Type} (key : ρ → Option String) (t : List ρ) :
    (pdGroups key t).map Prod.fst = sortKeys (uniqKeys (t.filterMap key)) := by
  unfold pdGroups
  rw [List.map_map]
  have hc : (Prod.fst ∘ fun k =>
      (k, t.filter (fun r => decide (key r = some k)))) = id := rfl
  rw [hc, List.map_id]

theorem pfSub_antisymm (x y : PFloat) : pfSub x y = pfNeg (pfSub y x) := by
  cases x <;> cases y <;> simp [pfSub, pfAdd, pfNeg]

theorem alookup_append {β : Type} (g : String) (l₁ l₂ : List (String × β)) :
    alookup g (l₁ ++ l₂) = (alookup g l₁).or (alookup g l₂) := by
  induction l₁ with
  | nil => simp [alookup]
  | cons p l ih =>
    by_cases h : p.1 = g <;> simp [alookup, h, ih]

theorem alookup_map_val {β γ : Type} (g : String) (l : List (String × β))
    (h : β → γ) :
    alookup g (l.map (fun p => (p.1, h p.2))) = (alookup g l).map h := by
  induction l with
  | nil => rfl
  | cons p l ih =>
    by_cases hp : p.1 = g <;> simp [alookup, hp, ih]

theorem alookup_block {β γ : Type} (g k : String) (a : β)
    (B : List (String × γ)) :
    alookup g (B.filterMap (fun q => if q.1 = k then some (k, a, q.2) else none))
      = if k = g then (alookup g B).map (fun b => (a, b)) else none := by
  induction B with
  | nil => simp [alookup]
  | cons q B ih =>
    by_cases hq : q.1 = k
    · by_cases hkg : k = g
      · simp [List.filterMap_cons, hq, alookup, hkg, hq.trans hkg]
      · simp [List.filterMap_cons, hq, alookup, hkg]
        exact ih.trans (by simp [hkg])
    · by_cases hqg : q.1 = g
      · have hkg : ¬ (k = g) := fun h => hq (hqg.trans h.symm)
        have hgk : ¬ (g = k) := fun h => hkg h.symm
        simp [List.filterMap_cons, hq, ih, alookup, hqg, hkg, hgk]
      · simp [List.filterMap_cons, hq, ih, alookup, hqg]

theorem alookup_mergeInner {β γ : Type} (g : String) (A : List (String × β))
    (B : List (String × γ)) :
    alookup g (mergeInner A B)
      = (alookup g A).bind (fun a => (alookup g B).map (fun b => (a, b))) := by
  induction A with
  | nil => rfl
  | cons p A ih =>
    have hsplit : mergeInner (p :: A) B =
        (B.filterMap fun q => if q.1 = p.1 then some (p.1, p.2, q.2) else none)
          ++ mergeInner A B := by
      simp [mergeInner]
    rw [hsplit, alookup_append, alookup_block]
    by_cases h : p.1 = g
    · cases hB : alookup g B <;> simp [alookup, h, hB, ih, Option.or]
    · simp [alookup, h, ih, Option.or]

theorem alookup_gapDF (A B : List (String × PFloat)) (g : String) :
    alookup g (gapDF A B)
      = (alookup g A).bind (fun a => (alookup g B).map (fun b => pfSub a b)) := by
  rw [show gapDF A B = (mergeInner A B).map
      (fun p => (p.1, (fun v : PFloat × PFloat => pfSub v.1 v.2) p.2)) from rfl]
  rw [alookup_map_val g (mergeInner A B) (fun v : PFloat × PFloat => pfSub v.1 v.2),
    alookup_mergeInner]
  cases alookup g A <;> cases alookup g B <;> simp

theorem mem_keys_mergeInner {β γ : Type} (g : String) (A : List (String × β))
    (B : List (String × γ)) :
    g ∈ (mergeInner A B).map Prod.fst
      ↔ g ∈ A.map Prod.fst ∧ g ∈ B.map Prod.fst := by
  constructor
  · intro h
    rcases List.mem_map.mp h with ⟨x, hx, rfl⟩
    rcases List.mem_flatMap.mp hx with ⟨p, hp, hxp⟩
    rcases List.mem_filterMap.mp hxp with ⟨q, hq, hqeq⟩
    by_cases hqp : q.1 = p.1
    · rw [if_pos hqp] at hqeq
      have hxval := Option.some.inj hqeq
      constructor
      · exact List.mem_map.mpr ⟨p, hp, by rw [← hxval]⟩
      · exact List.mem_map.mpr ⟨q, hq, by rw [← hxval, hqp]⟩
    · rw [if_neg hqp] at hqeq
      cases hqeq
  · rintro ⟨hA, hB⟩
    rcases List.mem_map.mp hA with ⟨p, hp, rfl⟩
    rcases List.mem_map.mp hB with ⟨q, hq, hqg⟩
    apply List.mem_map.mpr
    refine ⟨(p.1, p.2, q.2), ?_, rfl⟩
    apply List.mem_flatMap.mpr
    exact ⟨p, hp, List.mem_filterMap.mpr ⟨q, hq, by rw [if_pos hqg]⟩⟩

theorem mem_keys_gapDF (g : String) (A B : List (String × PFloat)) :
    g ∈ (gapDF A B).map Prod.fst
      ↔ g ∈ A.map Prod.fst ∧ g ∈ B.map Prod.fst := by
  unfold gapDF
  rw [List.map_map]
  exact mem_keys_mergeInner g A B

theorem alookup_keyed_map_of_mem {β : Type} {l : List String} {d : String}
    (f : String → β) (hnd : l.Nodup) (hd : d ∈ l) :
    alookup d (l.map (fun x => (x, f x))) = some (f d) := by
  induction l with
  | nil => cases hd
  | cons a l ih =>
    rcases List.mem_cons.mp hd with rfl | hmem
    · simp [alookup]
    · have hne : ¬ (a = d) := by
        rintro rfl; exact (List.nodup_cons.mp hnd).1 hmem
      simp only [List.map_cons, alookup, hne, if_false]
      exact ih (List.nodup_cons.mp hnd).2 hmem

theorem alookup_keyed_map_of_not_mem {β : Type} {l : List String} {d : String}
    (f : String → β) (hd : d ∉ l) :
    alookup d (l.map (fun x => (x, f x))) = none := by
  induction l with
  | nil => rfl
  | cons a l ih =>
    have hne : ¬ (a = d) := by rintro rfl; exact hd (List.mem_cons_self _ _)
    simp only [List.map_cons, alookup, hne, if_false]
    exact ih (fun h => hd (List.mem_cons_of_mem _ h))

theorem sum_over_groups_cover {ρ : Type} (f : ρ → Option ℚ)
    (key : ρ → Option String) :
    ∀ u : List String, u.Nodup → ∀ t : List ρ,
      (∀ r ∈ t, ∃ k ∈ u, key r = some k) →
      (u.map (fun k =>
          sumColQ f (t.filter (fun r => decide (key r = some k))))).sum
        = sumColQ f t := by
  intro u
  induction u with
  | nil =>
    intro _ t hcov
    have ht : t = [] := by
      apply List.eq_nil_iff_forall_not_mem.mpr
      intro r hr
      rcases hcov r hr with ⟨k, hk, _⟩
      exact absurd hk (List.not_mem_nil k)
    subst ht
    simp [sumColQ]
  | cons k u ih =>
    intro hnd t hcov
    obtain ⟨hk_not, hndu⟩ := List.nodup_cons.mp hnd
    have hfs : ∀ k' ∈ u,
        sumColQ f (t.filter (fun r => decide (key r = some k')))
          = sumColQ f ((t.filter
              (fun r => !(decide (key r = some k)))).filter
              (fun r => decide (key r = some k'))) := by
      intro k' hk'
      rw [List.filter_filter]
      congr 1
      apply List.filter_congr
      intro r _
      by_cases h : key r = some k'
      · have hkk : ¬ (k' = k) := fun hh => hk_not (hh ▸ hk')
        simp [h, hkk]
      · simp [h]
    rw [List.map_cons, List.sum_cons, List.map_congr_left hfs,
      ih hndu (t.filter (fun r => !(decide (key r = some k)))) ?_]
    · exact sumColQ_filter_split f (fun r => decide (key r = some k)) t
    · intro r hr
      have hrt : r ∈ t := List.mem_of_mem_filter hr
      rcases hcov r hrt with ⟨k'', hk'', hkey⟩
      rcases List.mem_cons.mp hk'' with rfl | hmem
      · have hb := (List.mem_filter.mp hr).2
        simp [hkey] at hb
      · exact ⟨k'', hmem, hkey⟩

theorem covAt_mem_dseis {t : List PAnoRow} {d : String} {y : Int}
    (h : covAt t d y ≠ .nan) : d ∈ dseisOf t := by
  unfold covAt at h
  by_cases he : (t.filter
      (fun r => decide (r.dsei = some d) && decide (r.ano = y))).isEmpty
  · simp [he] at h
  · have hne : t.filter
        (fun r => decide (r.dsei = some d) && decide (r.ano = y)) ≠ [] := by
      intro hnil
      rw [hnil] at he
      exact he rfl
    obtain ⟨r, hr⟩ := List.exists_mem_of_ne_nil _ hne
    obtain ⟨hrt, hrb⟩ := List.mem_filter.mp hr
    have hd : r.dsei = some d := by
      simp at hrb
      exact hrb.1
    unfold dseisOf
    exact mem_sortKeys.mpr (mem_uniqKeys.mpr
      (List.mem_filterMap.mpr ⟨r, hrt, by rw [hd]⟩))

/-! Claim theorems. -/

/-- C1 (counterexample): the Coverage Calculator of `process_prenatal_data`
does not leave a zero-denominator group undefined: over group A (numerator
50, denominator 100) and group B (numerator 0, denominator 0), group B comes
out with the numeric coverage 0 (the NaN from 0/0 is replaced by `fillna(0)`),
and 0 is not the NaN marker — contradicting the claim that such a group's
coverage is never the number 0. -/
theorem c1_counterexample :
    (processPrenatalData
        [⟨some "A", some 100, some 50⟩, ⟨some "B", some 0, some 0⟩]).map
      (fun r => (r.dsei, r.cobertura)) =
      [("A", PFloat.num (1/2)), ("B", PFloat.num 0)] ∧
    PFloat.num 0 ≠ PFloat.nan := by
  constructor
  · simp [processPrenatalData, pdGroups, sortKeys, uniqKeys, sumColQ,
      List.insertionSort, List.orderedInsert, pqdiv, fillna0, List.dedup,
      strLe, strLeb, strLeL]
    norm_num
  · intro h
    cases h

/-- C1 (amended): in `process_prenatal_data` a group whose denominator sum
and numerator sum are both zero gets the numeric coverage 0 (NaN filled by
`fillna(0)`) and stays in the ranking pool, rather than being excluded as an
undefined value; in `ultrassom_coverage_analysis` rows with nonpositive or
missing denominator are dropped before any division.  In both paths, top-1
selection over A (50/100) and B (0/0) returns only A. -/
theorem c1_zero_denominator_amended :
    (∀ (t : List PrenatalRow) (r : PGrouped), r ∈ processPrenatalData t →
        r.gestantesSum = 0 → r.consultasSum = 0 → r.cobertura = PFloat.num 0) ∧
    (topNBy PGrouped.cobertura 1
        (processPrenatalData
          [⟨some "A", some 100, some 50⟩, ⟨some "B", some 0, some 0⟩])).map
      PGrouped.dsei = ["A"] ∧
    (ultrassomCoverage
        [⟨some "A", some 100, some 50⟩, ⟨some "B", some 0, some 0⟩]).map
      UOut.dsei = ["A"] ∧
    (topNBy (fun o => PFloat.num o.cobertura) 1
        (ultrassomCoverage
          [⟨some "A", some 100, some 50⟩, ⟨some "B", some 0, some 0⟩])).map
      UOut.dsei = ["A"] := by
  refine ⟨?_, ?_, ?_, ?_⟩
  · intro t r hr hg hc
    rcases List.mem_map.mp hr with ⟨kg, _, rfl⟩
    dsimp only at hg hc ⊢
    rw [hg, hc]
    simp [pqdiv, fillna0]
  · simp [processPrenatalData, pdGroups, sortKeys, uniqKeys, sumColQ,
      List.insertionSort, List.orderedInsert, pqdiv, fillna0, List.dedup,
      strLe, strLeb, strLeL, topNBy, pdSortDesc, pfIsNan, pfLEb]
    norm_num
  · simp [ultrassomCoverage]
  · simp [ultrassomCoverage, topNBy, pdSortDesc, pfIsNan, pfLEb,
      List.insertionSort, List.orderedInsert]

/-- C1 (witness): the general clause of the amended claim applied to the
one-row table with group B (0, 0). -/
theorem c1_zero_denominator_witness :
    (⟨"B", 0, 0, PFloat.num 0⟩ : PGrouped).cobertura = PFloat.num 0 :=
  c1_zero_denominator_amended.1 [⟨some "B", some 0, some 0⟩]
    ⟨"B", 0, 0, PFloat.num 0⟩
    (by simp [processPrenatalData, pdGroups, sortKeys, uniqKeys, sumColQ,
      List.insertionSort, List.orderedInsert, pqdiv, fillna0, List.dedup,
      strLe, strLeb, strLeL])
    rfl rfl

/-- C2 (counterexample): with a table whose headers match no candidate, the
Column Resolver `find_column` returns Python `None` silently (no
`MissingColumnError` exists anywhere in the scripts), and the list-indexing
resolver idiom of the other scripts raises a plain `IndexError` that does not
name the missing field — contradicting the claim that a `MissingColumnError`
naming the field is signalled. -/
theorem c2_counterexample :
    findColumn ["municipio", "populacao"] ["dsei", "dsei_gestao"] = none ∧
    resolveFirstCol ["municipio", "populacao"] "dsei"
      = Except.error "IndexError" := by
  exact ⟨by decide, rfl⟩

/-- C2 (amended): whenever no column name contains any candidate pattern
(case-insensitively), `find_column` returns `None` rather than signalling an
error, and the `[col for col in columns if pat in col.lower()][0]` resolvers
fail with an `IndexError` that does not name the field. -/
theorem c2_missing_column_amended (cols pats : List String)
    (h : ∀ c ∈ cols, ∀ p ∈ pats, hasSub (pyLower c) (pyLower p) = false) :
    findColumn cols pats = none ∧
    ∀ p ∈ pats, resolveFirstCol cols (pyLower p) = Except.error "IndexError" := by
  constructor
  · induction pats with
    | nil => rfl
    | cons p ps ih =>
      have hfil : cols.filter (fun c => hasSub (pyLower c) (pyLower p)) = [] := by
        apply List.filter_eq_nil_iff.mpr
        intro c hc
        simp [h c hc p (List.mem_cons_self p ps)]
      unfold findColumn
      rw [hfil]
      exact ih (fun c hc p' hp' => h c hc p' (List.mem_cons_of_mem p hp'))
  · intro p hp
    have hfil : cols.filter (fun c => hasSub (pyLower c) (pyLower p)) = [] := by
      apply List.filter_eq_nil_iff.mpr
      intro c hc
      simp [h c hc p hp]
    unfold resolveFirstCol
    rw [hfil]

/-- C2 (witness): the amended claim applied to a concrete table with no
matching column. -/
theorem c2_missing_column_witness :
    findColumn ["municipio", "populacao"] ["dsei", "dsei_gestao"] = none :=
  (c2_missing_column_amended ["municipio", "populacao"] ["dsei", "dsei_gestao"]
    (by decide)).1

/-- C3 (counterexample): the Aggregator does not keep first-occurrence order:
grouping a table whose distinct keys first appear as B then A produces the
rows in ascending key order A, B (pandas groupby defaults to `sort = True`),
which differs from the first-occurrence order B, A. -/
theorem c3_counterexample :
    (prenatalMortGrouped
        [⟨some "B", some 1, some 1⟩, ⟨some "A", some 2, some 2⟩]).map
      MortGrouped.dsei = ["A", "B"] ∧
    uniqKeys (([⟨some "B", some 1, some 1⟩, ⟨some "A", some 2, some 2⟩] :
        List PrenatalRow).filterMap PrenatalRow.dsei) = ["B", "A"] ∧
    (["A", "B"] : List String) ≠ ["B", "A"] := by
  refine ⟨?_, by simp [uniqKeys, List.dedup], by decide⟩
  simp [prenatalMortGrouped, pdGroups, sortKeys, uniqKeys, List.dedup,
    List.insertionSort, List.orderedInsert, strLe, strLeb, strLeL]

/-- C3 (amended): the Aggregator's output rows appear in ascending
lexicographic order of the distinct group keys (pandas groupby sorts the
keys), and the groups are exactly the distinct present key values of the
input — not in first-occurrence order. -/
theorem c3_group_order_amended {ρ : Type} (key : ρ → Option String)
    (t : List ρ) :
    List.Sorted strLe ((pdGroups key t).map Prod.fst) ∧
    ∀ k, k ∈ (pdGroups key t).map Prod.fst ↔ k ∈ t.filterMap key := by
  rw [keys_pdGroups]
  constructor
  · exact sorted_sortKeys _
  · intro k
    rw [mem_sortKeys, mem_uniqKeys]

/-- C5: the gap computation joins the two coverage series as an inner join —
the looked-up gap of a group is defined exactly when the group occurs in both
series, in which case it is `coverage_a - coverage_b`; a group key occurs in
the gap table precisely when it occurs in both inputs; and on
coverage_a = (X : 0.6, Y : 0.3), coverage_b = (X : 0.4) the result holds only
X with gap 0.2 (group Y is dropped). -/
theorem c5_gap_inner_join :
    (∀ (A B : List (String × PFloat)) (g : String),
        alookup g (gapDF A B)
          = (alookup g A).bind (fun a =>
              (alookup g B).map (fun b => pfSub a b))) ∧
    (∀ (A B : List (String × PFloat)) (g : String),
        g ∈ (gapDF A B).map Prod.fst
          ↔ g ∈ A.map Prod.fst ∧ g ∈ B.map Prod.fst) ∧
    gapDF [("X", PFloat.num (6/10)), ("Y", PFloat.num (3/10))]
        [("X", PFloat.num (4/10))]
      = [("X", PFloat.num (2/10))] := by
  refine ⟨fun A B g => alookup_gapDF A B g, fun A B g => mem_keys_gapDF g A B, ?_⟩
  simp [gapDF, mergeInner, pfSub, pfAdd, pfNeg]
  norm_num

/-- C6 (counterexample): the change column of `comparar_evolucao_cobertura`
is the relative change multiplied by 100: a group moving from coverage 0.20
(2022) to 0.30 (2023) gets the value 50, not the claimed relative change
0.50. -/
theorem c6_counterexample :
    comparEvolucao
        [⟨some "G", some 5, some 1, 2022⟩, ⟨some "G", some 10, some 3, 2023⟩]
      = [("G", PFloat.num 50)] ∧
    PFloat.num 50 ≠ PFloat.num (1/2) := by
  constructor
  · simp [comparEvolucao, dseisOf, covAt, sortKeys, uniqKeys, List.dedup,
      List.insertionSort, List.orderedInsert, sumColQ, pqdiv, pfIsNan,
      pfScale, pfDiv, pfSub, pfAdd, pfNeg]
    norm_num
  · intro h
    have hq := PFloat.num.inj h
    norm_num at hq

/-- C6 (amended): for a group with both periods' coverage defined, the
computed change is ((later - earlier) / earlier) * 100 — the relative change
expressed in percent; a group whose earlier coverage is the NaN marker is
dropped by `dropna` before the computation (so it carries no change value at
all); and a zero earlier coverage with a positive later coverage yields the
non-finite marker `inf`, not a crash. -/
theorem c6_relative_change_amended :
    (∀ (t : List PAnoRow) (d : String) (a b : ℚ),
        covAt t d 2022 = PFloat.num a → covAt t d 2023 = PFloat.num b →
        a ≠ 0 →
        alookup d (comparEvolucao t)
          = some (PFloat.num ((b - a) / a * 100))) ∧
    (∀ (t : List PAnoRow) (d : String),
        covAt t d 2022 = PFloat.nan →
        alookup d (comparEvolucao t) = none) ∧
    (∀ (t : List PAnoRow) (d : String) (b : ℚ),
        covAt t d 2022 = PFloat.num 0 → covAt t d 2023 = PFloat.num b →
        0 < b →
        alookup d (comparEvolucao t) = some PFloat.inf) := by
  refine ⟨?_, ?_, ?_⟩
  · intro t d a b h22 h23 ha
    have hmem : d ∈ dseisOf t :=
      covAt_mem_dseis (by rw [h22]; exact fun h => PFloat.noConfusion h)
    have hfil : d ∈ (dseisOf t).filter (fun d' =>
        !(pfIsNan (covAt t d' 2022)) && !(pfIsNan (covAt t d' 2023))) := by
      refine List.mem_filter.mpr ⟨hmem, ?_⟩
      rw [h22, h23]
      rfl
    have hnd : ((dseisOf t).filter (fun d' =>
        !(pfIsNan (covAt t d' 2022)) && !(pfIsNan (covAt t d' 2023)))).Nodup :=
      (nodup_sortKeys (nodup_uniqKeys _)).filter _
    unfold comparEvolucao
    rw [alookup_keyed_map_of_mem (fun d' => pfScale 100
      (pfDiv (pfSub (covAt t d' 2023) (covAt t d' 2022))
        (covAt t d' 2022))) hnd hfil]
    rw [h22, h23]
    simp [pfSub, pfAdd, pfNeg, pfDiv, pqdiv, pfScale, ha, sub_eq_add_neg]
  · intro t d h22
    have hnot : d ∉ (dseisOf t).filter (fun d' =>
        !(pfIsNan (covAt t d' 2022)) && !(pfIsNan (covAt t d' 2023))) := by
      intro hm
      have hb := (List.mem_filter.mp hm).2
      rw [h22] at hb
      simp [pfIsNan] at hb
    unfold comparEvolucao
    exact alookup_keyed_map_of_not_mem (fun d' => pfScale 100
      (pfDiv (pfSub (covAt t d' 2023) (covAt t d' 2022))
        (covAt t d' 2022))) hnot
  · intro t d b h22 h23 hb
    have hmem : d ∈ dseisOf t :=
      covAt_mem_dseis (by rw [h22]; exact fun h => PFloat.noConfusion h)
    have hfil : d ∈ (dseisOf t).filter (fun d' =>
        !(pfIsNan (covAt t d' 2022)) && !(pfIsNan (covAt t d' 2023))) := by
      refine List.mem_filter.mpr ⟨hmem, ?_⟩
      rw [h22, h23]
      rfl
    have hnd : ((dseisOf t).filter (fun d' =>
        !(pfIsNan (covAt t d' 2022)) && !(pfIsNan (covAt t d' 2023)))).Nodup :=
      (nodup_sortKeys (nodup_uniqKeys _)).filter _
    unfold comparEvolucao
    rw [alookup_keyed_map_of_mem (fun d' => pfScale 100
      (pfDiv (pfSub (covAt t d' 2023) (covAt t d' 2022))
        (covAt t d' 2022))) hnd hfil]
    rw [h22, h23]
    simp [pfSub, pfAdd, pfNeg, pfDiv, pqdiv, pfScale, hb]

/-- C6 (witness): the amended formula applied to a concrete frame with
coverage 1/5 in 2022 and 3/10 in 2023. -/
theorem c6_relative_change_witness :
    alookup "G" (comparEvolucao
        [⟨some "G", some 5, some 1, 2022⟩, ⟨some "G", some 10, some 3, 2023⟩])
      = some (PFloat.num ((3/10 - 1/5) / (1/5) * 100)) :=
  c6_relative_change_amended.1 _ "G" (1/5) (3/10)
    (by simp [covAt, sumColQ, pqdiv])
    (by simp [covAt, sumColQ, pqdiv])
    (by norm_num)

/-- C7 (counterexample): conservation of totals fails on a table holding a
row with a missing group key: the grouped output drops that row (pandas
groupby drops null keys), so its column total 0 differs from the ungrouped
column total 5. -/
theorem c7_counterexample :
    ((pdGroups PrenatalRow.dsei
        ([⟨none, some 5, some 0⟩] : List PrenatalRow)).map
      (fun kg => sumColQ PrenatalRow.gestantes kg.2)).sum = 0 ∧
    sumColQ PrenatalRow.gestantes
      ([⟨none, some 5, some 0⟩] : List PrenatalRow) = 5 ∧
    (0 : ℚ) ≠ 5 := by
  refine ⟨by norm_num [pdGroups, sortKeys, uniqKeys, sumColQ],
    by norm_num [sumColQ], by norm_num⟩

/-- C7 (amended): for every table all of whose rows carry a present group
key, the sum of a numeric column over the Aggregator's grouped output equals
its sum over the ungrouped input (missing numeric cells count as zero on both
sides). -/
theorem c7_total_conservation {ρ : Type} (key : ρ → Option String)
    (f : ρ → Option ℚ) (t : List ρ) (h : ∀ r ∈ t, (key r).isSome) :
    ((pdGroups key t).map (fun kg => sumColQ f kg.2)).sum = sumColQ f t := by
  unfold pdGroups
  rw [List.map_map]
  have hc : ((fun kg : String × List ρ => sumColQ f kg.2) ∘
      (fun k => (k, t.filter (fun r => decide (key r = some k)))))
      = fun k => sumColQ f (t.filter (fun r => decide (key r = some k))) := rfl
  rw [hc]
  rw [((perm_sortKeys (uniqKeys (t.filterMap key))).map
      (fun k => sumColQ f (t.filter (fun r => decide (key r = some k))))).sum_eq]
  apply sum_over_groups_cover f key (uniqKeys (t.filterMap key))
    (nodup_uniqKeys _) t
  intro r hr
  rcases Option.isSome_iff_exists.mp (h r hr) with ⟨k, hk⟩
  exact ⟨k, mem_uniqKeys.mpr (List.mem_filterMap.mpr ⟨r, hr, hk⟩), hk⟩

/-- C7 (witness): conservation of totals on a concrete three-row table with
two groups. -/
theorem c7_total_conservation_witness :
    ((pdGroups PrenatalRow.dsei
        ([⟨some "A", some 2, some 1⟩, ⟨some "B", some 3, some 1⟩,
          ⟨some "A", some 4, some 1⟩] : List PrenatalRow)).map
      (fun kg => sumColQ PrenatalRow.gestantes kg.2)).sum
      = sumColQ PrenatalRow.gestantes
          ([⟨some "A", some 2, some 1⟩, ⟨some "B", some 3, some 1⟩,
            ⟨some "A", some 4, some 1⟩] : List PrenatalRow) :=
  c7_total_conservation PrenatalRow.dsei PrenatalRow.gestantes _ (by decide)

/-- C8: gap computation is antisymmetric — for every pair of coverage series
and every group key, the looked-up gap of gap(A, B) is the negation of the
looked-up gap of gap(B, A) (both being absent when the group misses from
either side). -/
theorem c8_gap_antisymm (A B : List (String × PFloat)) (g : String) :
    alookup g (gapDF A B) = (alookup g (gapDF B A)).map pfNeg := by
  rw [alookup_gapDF, alookup_gapDF]
  cases alookup g A with
  | none => cases alookup g B <;> simp
  | some a =>
    cases alookup g B with
    | none => simp
    | some b => simpa using pfSub_antisymm a b

/-- C9: column-name normalization is case-, diacritic- and
whitespace-insensitive: `clean_column_names` maps "DSEI_Gestão",
"dsei_gestao" and "Dsei Gestao " to the same cleaned name "dsei_gestao", and
`find_column` resolves each of the three spellings to the dsei field's
column via the same first candidate. -/
theorem c9_resolver_normalization :
    (cleanName "DSEI_Gestão" = "dsei_gestao" ∧
     cleanName "dsei_gestao" = "dsei_gestao" ∧
     cleanName "Dsei Gestao " = "dsei_gestao") ∧
    (findColumn ["DSEI_Gestão"] ["dsei", "dsei_gestao"] = some "DSEI_Gestão" ∧
     findColumn ["dsei_gestao"] ["dsei", "dsei_gestao"] = some "dsei_gestao" ∧
     findColumn ["Dsei Gestao "] ["dsei", "dsei_gestao"]
       = some "Dsei Gestao ") := by
  decide

/-- C10: in the mortality analysis, every grouped district with a nonzero
summed live-birth count has survival rate plus infant-mortality rate (both
per thousand) equal to exactly 1000. -/
theorem c10_rates_sum (t : List ObitoRow) (r : OGrouped)
    (hr : r ∈ obitosGrouped t) (hn : r.nascidosSum ≠ 0) :
    pfAdd r.sobrevivencia r.mortalidade = PFloat.num 1000 := by
  rcases List.mem_map.mp hr with ⟨kg, _, rfl⟩
  dsimp only at hn ⊢
  simp [pqdiv, pfScale, pfAdd, hn]
  field_simp
  ring

/-- C10 (witness): the rate identity applied to a concrete district with 10
live births and 2 infant deaths (rates 800 and 200 per thousand). -/
theorem c10_rates_sum_witness :
    pfAdd (PFloat.num 800) (PFloat.num 200) = PFloat.num 1000 :=
  c10_rates_sum [⟨some "D", some 10, some 0, some 2⟩]
    ⟨"D", 10, 2, PFloat.num 800, PFloat.num 200⟩
    (by
      simp [obitosGrouped, pdGroups, sortKeys, uniqKeys, List.dedup,
        List.insertionSort, List.orderedInsert, sumColQ, pqdiv, pfScale]
      norm_num)
    (by norm_num)
